import Mathlib

/-!
Shallow embedding of the numeric-literal parsing code of RRFLibraries
(src/General/NumericConverter.cpp and src/General/SafeStrtod.cpp).

The character stream fed to `NumericConverter::Accumulate` through the
`NextChar` callback is modelled as a `List Char`; the conceptually infinite
sentinel tail is the empty list, which every loop treats as a terminating
character.  The 32-bit unsigned mantissa `lvalue` is a `Nat` reduced modulo
2^32 at every arithmetic update, exactly where the C++ `uint32_t` arithmetic
wraps.  The `int` scale exponents `twos`/`fives` are modelled as unbounded
`Int` (their C++ overflow is reachable only with astronomically long inputs
and is outside every claim considered here).  Double-precision arithmetic in
`GetFloat` and `SafeStrtod` is modelled as exact rational arithmetic.
-/

/-- 2^32 - 1, the value of `std::numeric_limits<uint32_t>::max()`. -/
def uint32Max : Nat := 4294967295

/-- 2^64 - 1, the value of `ULONG_MAX` on the 64-bit reference platform. -/
def ulongMax : Nat := 18446744073709551615

/-- The fields of class `NumericConverter` that `Accumulate` fills in. -/
structure NumericConverter where
  lvalue : Nat
  twos : Int
  fives : Int
  hadDecimalPoint : Bool
  hadExponent : Bool
  isNegative : Bool
deriving Repr, DecidableEq

/-- The state at the start of `Accumulate`: every field reset. -/
def NumericConverter.reset : NumericConverter :=
  { lvalue := 0, twos := 0, fives := 0,
    hadDecimalPoint := false, hadExponent := false, isNegative := false }

/-- Step 1 of `Accumulate`: skip space and tab characters. -/
def skipWhite : List Char → List Char
  | [] => []
  | c :: rest => if c = ' ' ∨ c = '\t' then skipWhite rest else c :: rest

/-- Step 2 of `Accumulate`: consume an optional sign.  Returns `none` when a
leading minus sign is rejected because `acceptNegative` is false, otherwise
the value of `isNegative` and the remaining stream. -/
def readSign (acceptNegative : Bool) : List Char → Option (Bool × List Char)
  | [] => some (false, [])
  | c :: rest =>
    if c = '+' then some (false, rest)
    else if c = '-' then
      if acceptNegative then some (true, rest) else none
    else some (false, c :: rest)

/-- The loop of `Accumulate` that skips leading zeros, counting those after a
decimal point, and accepts at most one decimal point when `acceptReals`.
Returns the updated state, the `hadDigit` flag and the remaining stream. -/
def skipLeadingZeros (acceptReals : Bool) (s : NumericConverter) (hadDigit : Bool) :
    List Char → NumericConverter × Bool × List Char
  | [] => (s, hadDigit, [])
  | c :: rest =>
    if c = '0' then
      skipLeadingZeros acceptReals
        (if s.hadDecimalPoint then
          { s with twos := s.twos - 1, fives := s.fives - 1 }
        else s)
        true rest
    else if c = '.' ∧ s.hadDecimalPoint = false ∧ acceptReals = true then
      skipLeadingZeros acceptReals { s with hadDecimalPoint := true } hadDigit rest
    else (s, hadDigit, c :: rest)

/-- One significant digit consumed by the main loop of `Accumulate`
(lines 71-135 of NumericConverter.cpp): fold `digit` into the mantissa by
x10 while it fits, otherwise by x5, x2 or not at all, adjusting the scale
exponents; once `overflowed`, only bump both exponents before the decimal
point.  Mantissa arithmetic is `uint32_t`, hence the mod 2^32.  Returns the
updated state and the new value of `overflowed`. -/
def accumulateDigit (digit : Nat) (overflowed : Bool) (s : NumericConverter) :
    NumericConverter × Bool :=
  if overflowed then
    (if s.hadDecimalPoint = false then
      { s with twos := s.twos + 1, fives := s.fives + 1 }
    else s, true)
  else if s.lvalue ≤ (uint32Max - 9) / 10 ∨ s.lvalue ≤ (uint32Max - digit) / 10 then
    (if s.hadDecimalPoint then
      { s with lvalue := (s.lvalue * 10 + digit) % 4294967296,
               twos := s.twos - 1, fives := s.fives - 1 }
    else { s with lvalue := (s.lvalue * 10 + digit) % 4294967296 }, false)
  else
    let fivesDigit := (digit + 1) / 2
    if s.lvalue ≤ (uint32Max - fivesDigit) / 5 then
      (if s.hadDecimalPoint then
        { s with lvalue := (s.lvalue * 5 + fivesDigit) % 4294967296,
                 fives := s.fives - 1 }
      else
        { s with lvalue := (s.lvalue * 5 + fivesDigit) % 4294967296,
                 twos := s.twos + 1 }, true)
    else
      let twosDigit := (digit + 4) / 5
      if s.lvalue ≤ (uint32Max - twosDigit) / 2 then
        (if s.hadDecimalPoint then
          { s with lvalue := (s.lvalue * 2 + twosDigit) % 4294967296,
                   twos := s.twos - 1 }
        else
          { s with lvalue := (s.lvalue * 2 + twosDigit) % 4294967296,
                   fives := s.fives + 1 }, true)
      else if s.hadDecimalPoint = false then
        ({ s with twos := s.twos + 1, fives := s.fives + 1 }, true)
      else (s, true)

/-- The variant of `accumulateDigit` computed in unbounded natural-number
arithmetic, with no reduction modulo 2^32.  Used to state that the guarded
`uint32_t` arithmetic of the source never wraps. -/
def accumulateDigitExact (digit : Nat) (overflowed : Bool) (s : NumericConverter) :
    NumericConverter × Bool :=
  if overflowed then
    (if s.hadDecimalPoint = false then
      { s with twos := s.twos + 1, fives := s.fives + 1 }
    else s, true)
  else if s.lvalue ≤ (uint32Max - 9) / 10 ∨ s.lvalue ≤ (uint32Max - digit) / 10 then
    (if s.hadDecimalPoint then
      { s with lvalue := s.lvalue * 10 + digit,
               twos := s.twos - 1, fives := s.fives - 1 }
    else { s with lvalue := s.lvalue * 10 + digit }, false)
  else
    let fivesDigit := (digit + 1) / 2
    if s.lvalue ≤ (uint32Max - fivesDigit) / 5 then
      (if s.hadDecimalPoint then
        { s with lvalue := s.lvalue * 5 + fivesDigit, fives := s.fives - 1 }
      else
        { s with lvalue := s.lvalue * 5 + fivesDigit, twos := s.twos + 1 }, true)
    else
      let twosDigit := (digit + 4) / 5
      if s.lvalue ≤ (uint32Max - twosDigit) / 2 then
        (if s.hadDecimalPoint then
          { s with lvalue := s.lvalue * 2 + twosDigit, twos := s.twos - 1 }
        else
          { s with lvalue := s.lvalue * 2 + twosDigit, fives := s.fives + 1 }, true)
      else if s.hadDecimalPoint = false then
        ({ s with twos := s.twos + 1, fives := s.fives + 1 }, true)
      else (s, true)

/-- The main digit-reading loop of `Accumulate` (lines 69-145): read digits
through `accumulateDigit` and accept at most one decimal point when
`acceptReals`.  Returns the updated state, `hadDigit` and the remaining
stream. -/
def readDigits (acceptReals : Bool) (s : NumericConverter)
    (hadDigit overflowed : Bool) : List Char → NumericConverter × Bool × List Char
  | [] => (s, hadDigit, [])
  | c :: rest =>
    if c.isDigit then
      match accumulateDigit (c.toNat - 48) overflowed s with
      | (s2, ov2) => readDigits acceptReals s2 true ov2 rest
    else if c = '.' ∧ s.hadDecimalPoint = false ∧ acceptReals = true then
      readDigits acceptReals { s with hadDecimalPoint := true } hadDigit overflowed rest
    else (s, hadDigit, c :: rest)

/-- The exponent-digit loop of `Accumulate` (lines 172-176): the exponent is
accumulated in an `unsigned int`, hence the mod 2^32. -/
def readExponentDigits (e : Nat) : List Char → Nat × List Char
  | [] => (e, [])
  | c :: rest =>
    if c.isDigit then readExponentDigits ((10 * e + (c.toNat - 48)) % 4294967296) rest
    else (e, c :: rest)

/-- Step 5 of `Accumulate` (lines 153-188): an optional exponent part.  If an
`E`/`e` marker is accepted but not followed by a digit after an optional
sign, the parse fails (`none`). -/
def readExponentPart (acceptReals : Bool) (s : NumericConverter) :
    List Char → Option NumericConverter
  | [] => some s
  | c :: rest =>
    if acceptReals = true ∧ (c = 'E' ∨ c = 'e') then
      match
        (match rest with
          | '-' :: rest2 => (true, rest2)
          | '+' :: rest2 => (false, rest2)
          | other => (false, other)) with
      | (expNegative, rest3) =>
        match rest3 with
        | [] => none
        | d :: rest4 =>
          if d.isDigit then
            match readExponentDigits 0 (d :: rest4) with
            | (exponent, _) =>
              if expNegative then
                some { s with hadExponent := true,
                              twos := s.twos - exponent, fives := s.fives - exponent }
              else
                some { s with hadExponent := true,
                              twos := s.twos + exponent, fives := s.fives + exponent }
          else none
    else some s

/-- `NumericConverter::Accumulate`, assembled from its phases.  Returns the
C++ boolean result together with the state of the object at the point of
return (the fields remain readable even after a failed parse). -/
def Accumulate (acceptNegative acceptReals : Bool) (cs : List Char) :
    Bool × NumericConverter :=
  match readSign acceptNegative (skipWhite cs) with
  | none => (false, NumericConverter.reset)
  | some (neg, cs2) =>
    match skipLeadingZeros acceptReals
        { lvalue := 0, twos := 0, fives := 0, hadDecimalPoint := false,
          hadExponent := false, isNegative := neg }
        false cs2 with
    | (s2, hadDigit1, cs3) =>
      match readDigits acceptReals s2 hadDigit1 false cs3 with
      | (s3, hadDigit2, cs4) =>
        if hadDigit2 = false then (false, s3)
        else
          match readExponentPart acceptReals s3 cs4 with
          | none => (false, s3)
          | some s4 => (true, s4)

/-- `NumericConverter::FitsInUint32`. -/
def FitsInUint32 (s : NumericConverter) : Bool :=
  s.hadDecimalPoint = false ∧ s.hadExponent = false ∧
    (s.isNegative = false ∨ s.lvalue = 0) ∧ s.twos = 0 ∧ s.fives = 0 ∧
    s.lvalue ≤ uint32Max

/-- `NumericConverter::GetUint32`. -/
def GetUint32 (s : NumericConverter) : Nat := s.lvalue

/-- The table `inversePowersOfTen` of NumericConverter.cpp; the double
constants 0.1 ... 0.000000000001 are modelled as exact rationals. -/
def inversePowersOfTen : List ℚ :=
  [1/10, 1/100, 1/1000, 1/10000, 1/100000, 1/1000000,
    1/10000000, 1/100000000, 1/1000000000, 1/10000000000,
    1/100000000000, 1/1000000000000]

/-- `NumericConverter::GetFloat`, with the double-precision arithmetic
modelled as exact rational arithmetic. -/
def GetFloat (s : NumericConverter) : ℚ :=
  let dvalue : ℚ := (s.lvalue : ℚ)
  let tens : Int := if s.twos < s.fives then s.twos else s.fives
  let dvalue :=
    if tens ≠ 0 then
      if tens < 0 ∧ -12 ≤ tens then
        dvalue * inversePowersOfTen.getD (-tens - 1).toNat 0
      else dvalue * (10 : ℚ) ^ tens
    else dvalue
  let dvalue :=
    if s.twos < s.fives then dvalue * 5
    else if s.fives < s.twos then dvalue * 2
    else dvalue
  if s.isNegative then -dvalue else dvalue

/-- `NumericConverter::GetDigitsAfterPoint`. -/
def GetDigitsAfterPoint (s : NumericConverter) : Nat :=
  let digits : Int := if s.fives < s.twos then s.fives else s.twos
  if digits < 0 then (-digits).toNat else 0

/-- The behaviour the specification ascribes to `GetDigitsAfterPoint`:
the smaller-MAGNITUDE of the two scale exponents, negated and clamped to
zero if that exponent is positive.  Stated for comparison with the source
function, which takes the smaller (more negative) exponent instead. -/
def GetDigitsAfterPointSpec (s : NumericConverter) : Nat :=
  let e : Int := if s.fives.natAbs < s.twos.natAbs then s.fives else s.twos
  if e < 0 then (-e).toNat else 0

/-!  SafeStrtod.cpp.  Strings are `List Char`; the terminating NUL of a C
string is the end of the list (every loop of the source stops at NUL because
NUL is neither a digit nor any other matched character). -/

/-- Modelled from the spec: `TimesPowerOf10` lives in src/Math/Power.h,
which is not part of the sources given; the specification describes the
combination step as multiplication by the corresponding power of ten
(`(postPoint / 10^digitsAfterPoint + prePoint) * 10^exponent`), so the
helper is modelled as exact multiplication by `10^n`. -/
def TimesPowerOf10 (x : ℚ) (n : Int) : ℚ := x * (10 : ℚ) ^ n

/-- Step 2 of `SafeStrtod`: read the digits before the decimal point into a
double (modelled as an exact rational).  Returns the value and the remaining
string. -/
def readValueBeforePoint (v : ℚ) : List Char → ℚ × List Char
  | [] => (v, [])
  | c :: rest =>
    if c.isDigit then readValueBeforePoint (v * 10 + ((c.toNat : ℚ) - 48)) rest
    else (v, c :: rest)

/-- Step 3b of `SafeStrtod`: read the digits after the decimal point into an
`unsigned long` with approximate rounding on overflow.  Arguments are the
accumulated `valueAfterPoint`, `digitsAfterPoint` and the `overflowed` flag;
returns the final `valueAfterPoint`, `digitsAfterPoint` and remaining
string.  The guard keeps `valueAfterPoint` within `ulongMax`, so the
modelling by an unbounded `Nat` agrees with the `unsigned long` source. -/
def readValueAfterPoint (v : Nat) (digitsAfterPoint : Int) (overflowed : Bool) :
    List Char → Nat × Int × List Char
  | [] => (v, digitsAfterPoint, [])
  | c :: rest =>
    if c.isDigit then
      if overflowed then readValueAfterPoint v digitsAfterPoint true rest
      else
        let digit := c.toNat - 48
        if v ≤ (ulongMax - digit) / 10 then
          readValueAfterPoint (v * 10 + digit) (digitsAfterPoint + 1) false rest
        else if 5 ≤ digit ∧ v ≠ ulongMax then
          readValueAfterPoint (v + 1) digitsAfterPoint true rest
        else readValueAfterPoint v digitsAfterPoint true rest
    else (v, digitsAfterPoint, c :: rest)

/-- The exponent-digit loop of `SafeStrtod` (step 5b), applying the sign at
the end. -/
def readExponentDigitsD (e : Int) (expNegative : Bool) : List Char → Int × List Char
  | [] => (if expNegative then -e else e, [])
  | c :: rest =>
    if c.isDigit then readExponentDigitsD (10 * e + ((c.toNat : Int) - 48)) expNegative rest
    else (if expNegative then -e else e, c :: rest)

/-- The sign step of `SafeStrtod` (also reused for the exponent sign):
`negative = (*s == '-'); if (negative || *s == '+') ++s;`. -/
def readSignD : List Char → Bool × List Char
  | [] => (false, [])
  | c :: rest =>
    if c = '-' then (true, rest)
    else if c = '+' then (false, rest)
    else (false, c :: rest)

/-- Step 5 of `SafeStrtod`: an optional exponent part.  The exponent is a
`long`, modelled as an unbounded `Int`.  Unlike `Accumulate`, a marker not
followed by digits is not an error here: the exponent is simply 0. -/
def readExponentD : List Char → Int × List Char
  | [] => (0, [])
  | c :: rest =>
    if c = 'E' ∨ c = 'e' then
      match readSignD rest with
      | (expNegative, rest3) => readExponentDigitsD 0 expNegative rest3
    else (0, c :: rest)

/-- Step 6 of `SafeStrtod`: combine the pre-point value, post-point value,
post-point digit count and exponent into the result. -/
def combineValue (valueBeforePoint : ℚ) (valueAfterPoint : Nat)
    (digitsAfterPoint : Int) (exponent : Int) : ℚ :=
  if valueAfterPoint ≠ 0 then
    if valueBeforePoint = 0 then
      TimesPowerOf10 (valueAfterPoint : ℚ) (exponent - digitsAfterPoint)
    else
      TimesPowerOf10
        (TimesPowerOf10 (valueAfterPoint : ℚ) (-digitsAfterPoint) + valueBeforePoint)
        exponent
  else TimesPowerOf10 valueBeforePoint exponent

/-- Step 3 of `SafeStrtod`: the fractional part, entered only on a decimal
point. -/
def readFracPart : List Char → Nat × Int × List Char
  | [] => (0, 0, [])
  | c :: rest =>
    if c = '.' then readValueAfterPoint 0 0 false rest
    else (0, 0, c :: rest)

/-- `SafeStrtod`, assembled from its phases; returns the parsed value (the
end pointer is not needed by any claim about this function). -/
def SafeStrtod (cs : List Char) : ℚ :=
  match readSignD (skipWhite cs) with
  | (negative, cs1) =>
    match readValueBeforePoint 0 cs1 with
    | (valueBeforePoint, cs2) =>
      match readFracPart cs2 with
      | (valueAfterPoint, digitsAfterPoint, cs3) =>
        match readExponentD cs3 with
        | (exponent, _) =>
          if negative then
            -(combineValue valueBeforePoint valueAfterPoint digitsAfterPoint exponent)
          else combineValue valueBeforePoint valueAfterPoint digitsAfterPoint exponent

/-- Is this character one of the white-space characters `SafeStrtoul`
skips? -/
def isSpaceTab (c : Char) : Bool := c = ' ' ∨ c = '\t'

/-- `SafeStrtoul`, with the C-library `strtoul` it delegates to abstracted
as an oracle: given the remaining string and the base, the oracle returns
the parsed value and the number of characters it consumed.  `SafeStrtoul`
itself returns the value and the index into the original string at which
parsing stopped (the offset the C version reports through `endptr`).
The index argument `i` counts the characters already skipped. -/
def SafeStrtoulFrom (oracle : List Char → Nat → Nat × Nat) :
    List Char → Nat → Nat → Nat × Nat
  | c :: rest, i, base =>
    if isSpaceTab c then SafeStrtoulFrom oracle rest (i + 1) base
    else if c = '-' then (0, i)
    else
      match oracle (c :: rest) base with
      | (v, n) => (v, i + n)
  | [], i, base =>
    match oracle [] base with
    | (v, n) => (v, i + n)

/-- `SafeStrtoul` on a whole string. -/
def SafeStrtoul (oracle : List Char → Nat → Nat × Nat) (s : List Char)
    (base : Nat) : Nat × Nat :=
  SafeStrtoulFrom oracle s 0 base
/-- Guards of the form `l <= (uint32Max - d)/k` are exactly the no-overflow
conditions `l*k + d <= uint32Max`. -/
theorem div_guard_iff (l d k : Nat) (hk : 0 < k) (hd : d ≤ uint32Max) :
    (l ≤ (uint32Max - d) / k) ↔ l * k + d ≤ uint32Max := by
  rw [Nat.le_div_iff_mul_le hk]
  omega

theorem guard10_iff (l d : Nat) (hd : d ≤ 9) :
    (l ≤ (uint32Max - 9) / 10 ∨ l ≤ (uint32Max - d) / 10) ↔ l * 10 + d ≤ uint32Max := by
  have h9 : (9 : Nat) ≤ uint32Max := by simp [uint32Max]
  rw [div_guard_iff l 9 10 (by norm_num) h9, div_guard_iff l d 10 (by norm_num) (by omega)]
  omega

theorem accumulateDigit_eq_exact (s : NumericConverter) (d : Nat) (ov : Bool)
    (hd : d ≤ 9) : accumulateDigit d ov s = accumulateDigitExact d ov s := by
  have hM : uint32Max < 4294967296 := by simp [uint32Max]
  unfold accumulateDigit accumulateDigitExact
  by_cases hov : ov = true
  · simp [hov]
  · simp only [Bool.not_eq_true] at hov
    subst hov
    simp only [Bool.false_eq_true, if_false]
    by_cases h10 : s.lvalue ≤ (uint32Max - 9) / 10 ∨ s.lvalue ≤ (uint32Max - d) / 10
    · have hle : s.lvalue * 10 + d ≤ uint32Max := (guard10_iff _ _ hd).1 h10
      rw [if_pos h10, if_pos h10, Nat.mod_eq_of_lt (by omega)]
    · rw [if_neg h10, if_neg h10]
      by_cases h5 : s.lvalue ≤ (uint32Max - (d + 1) / 2) / 5
      · have hle : s.lvalue * 5 + (d + 1) / 2 ≤ uint32Max :=
          (div_guard_iff _ _ 5 (by norm_num) (by simp [uint32Max]; omega)).1 h5
        simp only [if_pos h5, Nat.mod_eq_of_lt (by omega : s.lvalue * 5 + (d + 1) / 2 < 4294967296)]
      · simp only [if_neg h5]
        by_cases h2 : s.lvalue ≤ (uint32Max - (d + 4) / 5) / 2
        · have hle : s.lvalue * 2 + (d + 4) / 5 ≤ uint32Max :=
            (div_guard_iff _ _ 2 (by norm_num) (by simp [uint32Max]; omega)).1 h2
          simp only [if_pos h2, Nat.mod_eq_of_lt (by omega : s.lvalue * 2 + (d + 4) / 5 < 4294967296)]
        · simp only [if_neg h2]
/-- C1: when folding a digit into a saturated mantissa, `Accumulate` tries
x5 with (digit+1)/2 (bumping `twos` before the point, dropping `fives` after
it), else x2 with (digit+4)/5 (bumping `fives` before the point, dropping
`twos` after it), else drops the digit, bumping both exponents before the
point; once overflowed, each further digit before the point bumps both
exponents and each digit after the point changes nothing. -/
theorem accumulate_overflow_folding :
    (∀ (s : NumericConverter) (d : Nat), d ≤ 9 →
      uint32Max < s.lvalue * 10 + d →
      s.lvalue * 5 + (d + 1) / 2 ≤ uint32Max →
      accumulateDigit d false s =
        (if s.hadDecimalPoint then
          { s with lvalue := s.lvalue * 5 + (d + 1) / 2, fives := s.fives - 1 }
        else { s with lvalue := s.lvalue * 5 + (d + 1) / 2, twos := s.twos + 1 }, true)) ∧
    (∀ (s : NumericConverter) (d : Nat), d ≤ 9 →
      uint32Max < s.lvalue * 10 + d →
      uint32Max < s.lvalue * 5 + (d + 1) / 2 →
      s.lvalue * 2 + (d + 4) / 5 ≤ uint32Max →
      accumulateDigit d false s =
        (if s.hadDecimalPoint then
          { s with lvalue := s.lvalue * 2 + (d + 4) / 5, twos := s.twos - 1 }
        else { s with lvalue := s.lvalue * 2 + (d + 4) / 5, fives := s.fives + 1 }, true)) ∧
    (∀ (s : NumericConverter) (d : Nat), d ≤ 9 →
      uint32Max < s.lvalue * 10 + d →
      uint32Max < s.lvalue * 5 + (d + 1) / 2 →
      uint32Max < s.lvalue * 2 + (d + 4) / 5 →
      accumulateDigit d false s =
        (if s.hadDecimalPoint then s
        else { s with twos := s.twos + 1, fives := s.fives + 1 }, true)) ∧
    (∀ (s : NumericConverter) (d : Nat), s.hadDecimalPoint = false →
      accumulateDigit d true s =
        ({ s with twos := s.twos + 1, fives := s.fives + 1 }, true)) ∧
    (∀ (s : NumericConverter) (d : Nat), s.hadDecimalPoint = true →
      accumulateDigit d true s = (s, true)) := by
  refine ⟨?_, ?_, ?_, ?_, ?_⟩
  · intro s d hd h10 h5
    have g10 : ¬ (s.lvalue ≤ (uint32Max - 9) / 10 ∨ s.lvalue ≤ (uint32Max - d) / 10) := by
      rw [guard10_iff _ _ hd]; omega
    have g5 : s.lvalue ≤ (uint32Max - (d + 1) / 2) / 5 :=
      (div_guard_iff _ _ 5 (by norm_num) (by simp [uint32Max]; omega)).2 h5
    have hlt : s.lvalue * 5 + (d + 1) / 2 < 4294967296 := by
      have : uint32Max = 4294967295 := rfl
      omega
    simp only [accumulateDigit, Bool.false_eq_true, if_false, if_neg g10, if_pos g5,
      Nat.mod_eq_of_lt hlt]
  · intro s d hd h10 h5 h2
    have g10 : ¬ (s.lvalue ≤ (uint32Max - 9) / 10 ∨ s.lvalue ≤ (uint32Max - d) / 10) := by
      rw [guard10_iff _ _ hd]; omega
    have g5 : ¬ s.lvalue ≤ (uint32Max - (d + 1) / 2) / 5 := by
      rw [div_guard_iff _ _ 5 (by norm_num) (by simp [uint32Max]; omega)]; omega
    have g2 : s.lvalue ≤ (uint32Max - (d + 4) / 5) / 2 :=
      (div_guard_iff _ _ 2 (by norm_num) (by simp [uint32Max]; omega)).2 h2
    have hlt : s.lvalue * 2 + (d + 4) / 5 < 4294967296 := by
      have : uint32Max = 4294967295 := rfl
      omega
    simp only [accumulateDigit, Bool.false_eq_true, if_false, if_neg g10, if_neg g5,
      if_pos g2, Nat.mod_eq_of_lt hlt]
  · intro s d hd h10 h5 h2
    have g10 : ¬ (s.lvalue ≤ (uint32Max - 9) / 10 ∨ s.lvalue ≤ (uint32Max - d) / 10) := by
      rw [guard10_iff _ _ hd]; omega
    have g5 : ¬ s.lvalue ≤ (uint32Max - (d + 1) / 2) / 5 := by
      rw [div_guard_iff _ _ 5 (by norm_num) (by simp [uint32Max]; omega)]; omega
    have g2 : ¬ s.lvalue ≤ (uint32Max - (d + 4) / 5) / 2 := by
      rw [div_guard_iff _ _ 2 (by norm_num) (by simp [uint32Max]; omega)]; omega
    simp only [accumulateDigit, Bool.false_eq_true, if_false, if_neg g10, if_neg g5, if_neg g2]
    by_cases hp : s.hadDecimalPoint <;> simp [hp]
  · intro s d hp
    simp [accumulateDigit, hp]
  · intro s d hp
    simp [accumulateDigit, hp]

/-- Witness for the overflow-folding theorem: each branch exercised at a
concrete mantissa and digit. -/
theorem accumulate_overflow_folding_witness :
    (accumulateDigit 6 false { NumericConverter.reset with lvalue := 429496729 } =
      ({ NumericConverter.reset with lvalue := 2147483648, twos := 1 }, true)) ∧
    (accumulateDigit 9 false { NumericConverter.reset with lvalue := 2147483646 } =
      ({ NumericConverter.reset with lvalue := 4294967294, fives := 1 }, true)) ∧
    (accumulateDigit 9 false { NumericConverter.reset with lvalue := 2147483647 } =
      ({ NumericConverter.reset with lvalue := 2147483647, twos := 1, fives := 1 }, true)) ∧
    (accumulateDigit 7 true { NumericConverter.reset with lvalue := 2147483648 } =
      ({ NumericConverter.reset with lvalue := 2147483648, twos := 1, fives := 1 }, true)) ∧
    (accumulateDigit 7 true
        { NumericConverter.reset with lvalue := 2147483648, hadDecimalPoint := true } =
      ({ NumericConverter.reset with lvalue := 2147483648, hadDecimalPoint := true }, true)) := by
  refine ⟨?_, ?_, ?_, ?_, ?_⟩
  · exact (accumulate_overflow_folding.1 _ 6 (by decide) (by decide) (by decide)).trans
      (by decide)
  · exact (accumulate_overflow_folding.2.1 _ 9 (by decide) (by decide) (by decide)
      (by decide)).trans (by decide)
  · exact (accumulate_overflow_folding.2.2.1 _ 9 (by decide) (by decide) (by decide)
      (by decide)).trans (by decide)
  · exact accumulate_overflow_folding.2.2.2.1 _ 7 (by decide)
  · exact accumulate_overflow_folding.2.2.2.2 _ 7 (by decide)
theorem accumulateDigit_lvalue_le (d : Nat) (ov : Bool) (s : NumericConverter)
    (h : s.lvalue ≤ uint32Max) :
    ((accumulateDigit d ov s).1).lvalue ≤ uint32Max := by
  have hM : uint32Max = 4294967295 := rfl
  unfold accumulateDigit
  dsimp only
  split_ifs <;> simp <;> omega

theorem skipLeadingZeros_lvalue (ar : Bool) (cs : List Char) :
    ∀ (s : NumericConverter) (hd : Bool),
      ((skipLeadingZeros ar s hd cs).1).lvalue = s.lvalue := by
  induction cs with
  | nil => intro s hd; rfl
  | cons c rest ih =>
    intro s hd
    rw [skipLeadingZeros]
    split_ifs with h0 hp hdot
    · exact ih _ _
    · exact ih _ _
    · exact ih _ _
    · rfl

theorem readDigits_lvalue_le (ar : Bool) (cs : List Char) :
    ∀ (s : NumericConverter) (hd ov : Bool), s.lvalue ≤ uint32Max →
      ((readDigits ar s hd ov cs).1).lvalue ≤ uint32Max := by
  induction cs with
  | nil => intro s hd ov h; exact h
  | cons c rest ih =>
    intro s hd ov h
    rw [readDigits]
    split_ifs with hc hp
    · rcases hAD : accumulateDigit (c.toNat - 48) ov s with ⟨s2, ov2⟩
      have h2 : s2.lvalue ≤ uint32Max := by
        have := accumulateDigit_lvalue_le (c.toNat - 48) ov s h
        rw [hAD] at this
        exact this
      exact ih s2 true ov2 h2
    · exact ih _ _ _ h
    · exact h

theorem readExponentPart_some (ar : Bool) (s : NumericConverter) (cs : List Char)
    (s4 : NumericConverter) (h : readExponentPart ar s cs = some s4) :
    s4.lvalue = s.lvalue ∧ s4.twos - s4.fives = s.twos - s.fives := by
  unfold readExponentPart at h
  split at h
  · cases h
    exact ⟨rfl, rfl⟩
  · split at h
    · split at h
      · split at h
        · cases h
        · split at h
          · split at h
            · split at h <;> (cases h; constructor <;> simp)
          · cases h
    · cases h
      exact ⟨rfl, rfl⟩
/-- C5: the mantissa never wraps modulo 2^32: the digit step computed in
`uint32_t` arithmetic coincides with the one computed in unbounded
arithmetic (every update expression is guarded so its mathematical value
fits), and on every input stream the accumulated mantissa stays within
2^32 - 1. -/
theorem accumulate_no_wrap :
    (∀ (s : NumericConverter) (d : Nat) (ov : Bool), d ≤ 9 →
        accumulateDigit d ov s = accumulateDigitExact d ov s) ∧
    (∀ (acceptNegative acceptReals : Bool) (cs : List Char),
        ((Accumulate acceptNegative acceptReals cs).2).lvalue ≤ uint32Max) := by
  constructor
  · intro s d ov hd
    exact accumulateDigit_eq_exact s d ov hd
  · intro an ar cs
    rcases hrs : readSign an (skipWhite cs) with _ | ⟨neg, cs2⟩
    · unfold Accumulate
      rw [hrs]
      simp [NumericConverter.reset, uint32Max]
    · rcases hslz : skipLeadingZeros ar
        { lvalue := 0, twos := 0, fives := 0, hadDecimalPoint := false,
          hadExponent := false, isNegative := neg }
        false cs2 with ⟨s2, hd1, cs3⟩
      rcases hrd : readDigits ar s2 hd1 false cs3 with ⟨s3, hd2, cs4⟩
      have hs2 : s2.lvalue = 0 := by
        have h := skipLeadingZeros_lvalue ar cs2
          { lvalue := 0, twos := 0, fives := 0, hadDecimalPoint := false,
            hadExponent := false, isNegative := neg } false
        rw [hslz] at h
        exact h
      have hs3 : s3.lvalue ≤ uint32Max := by
        have h := readDigits_lvalue_le ar cs3 s2 hd1 false (by rw [hs2]; exact Nat.zero_le _)
        rw [hrd] at h
        exact h
      unfold Accumulate
      rw [hrs]
      dsimp only
      rw [hslz]
      dsimp only
      rw [hrd]
      dsimp only
      by_cases hd2e : hd2 = false
      · rw [if_pos hd2e]
        exact hs3
      · rw [if_neg hd2e]
        rcases hre : readExponentPart ar s3 cs4 with _ | s4
        · exact hs3
        · dsimp only
          have h := readExponentPart_some ar s3 cs4 s4 hre
          rw [h.1]
          exact hs3

/-- Witness for the no-wrap theorem at digit 6 on a saturated mantissa. -/
theorem accumulate_no_wrap_witness :
    6 ≤ 9 ∧ accumulateDigit 6 false { NumericConverter.reset with lvalue := 429496729 } =
      accumulateDigitExact 6 false { NumericConverter.reset with lvalue := 429496729 } :=
  ⟨by decide, accumulate_no_wrap.1 _ 6 false (by decide)⟩
theorem accumulateDigit_diff (d : Nat) (ov : Bool) (s : NumericConverter)
    (h1 : ov = false → s.twos = s.fives)
    (h2 : (s.twos - s.fives).natAbs ≤ 1) :
    ((accumulateDigit d ov s).2 = false →
      ((accumulateDigit d ov s).1).twos = ((accumulateDigit d ov s).1).fives) ∧
    (((accumulateDigit d ov s).1).twos - ((accumulateDigit d ov s).1).fives).natAbs ≤ 1 := by
  unfold accumulateDigit
  dsimp only
  split_ifs <;> simp_all

theorem skipLeadingZeros_diff (ar : Bool) (cs : List Char) :
    ∀ (s : NumericConverter) (hd : Bool), s.twos = s.fives →
      ((skipLeadingZeros ar s hd cs).1).twos = ((skipLeadingZeros ar s hd cs).1).fives := by
  induction cs with
  | nil => intro s hd h; exact h
  | cons c rest ih =>
    intro s hd h
    rw [skipLeadingZeros]
    split_ifs with h0 hp hdot
    · exact ih _ _ (by simp [h])
    · exact ih _ _ h
    · exact ih _ _ h
    · exact h

theorem readDigits_diff (ar : Bool) (cs : List Char) :
    ∀ (s : NumericConverter) (hd ov : Bool),
      (ov = false → s.twos = s.fives) → (s.twos - s.fives).natAbs ≤ 1 →
      (((readDigits ar s hd ov cs).1).twos - ((readDigits ar s hd ov cs).1).fives).natAbs ≤ 1 := by
  induction cs with
  | nil => intro s hd ov h1 h2; exact h2
  | cons c rest ih =>
    intro s hd ov h1 h2
    rw [readDigits]
    split_ifs with hc hp
    · rcases hAD : accumulateDigit (c.toNat - 48) ov s with ⟨s2, ov2⟩
      have hstep := accumulateDigit_diff (c.toNat - 48) ov s h1 h2
      rw [hAD] at hstep
      exact ih s2 true ov2 hstep.1 hstep.2
    · exact ih _ _ _ h1 h2
    · exact h2

/-- C3: at every point of `Accumulate` the two scale exponents differ by at
most one: the per-digit step preserves `|twos - fives| <= 1` (together with
the fact that they are equal until overflow folding begins), and the state
returned by `Accumulate` on any input satisfies `|twos - fives| <= 1`. -/
theorem accumulate_diff_le_one :
    (∀ (acceptNegative acceptReals : Bool) (cs : List Char),
        (((Accumulate acceptNegative acceptReals cs).2).twos -
          ((Accumulate acceptNegative acceptReals cs).2).fives).natAbs ≤ 1) ∧
    (∀ (s : NumericConverter) (d : Nat) (ov : Bool),
        (ov = false → s.twos = s.fives) → (s.twos - s.fives).natAbs ≤ 1 →
        (((accumulateDigit d ov s).1).twos -
          ((accumulateDigit d ov s).1).fives).natAbs ≤ 1) := by
  constructor
  · intro an ar cs
    rcases hrs : readSign an (skipWhite cs) with _ | ⟨neg, cs2⟩
    · unfold Accumulate
      rw [hrs]
      simp [NumericConverter.reset]
    · rcases hslz : skipLeadingZeros ar
        { lvalue := 0, twos := 0, fives := 0, hadDecimalPoint := false,
          hadExponent := false, isNegative := neg }
        false cs2 with ⟨s2, hd1, cs3⟩
      rcases hrd : readDigits ar s2 hd1 false cs3 with ⟨s3, hd2, cs4⟩
      have hs2 : s2.twos = s2.fives := by
        have h := skipLeadingZeros_diff ar cs2
          { lvalue := 0, twos := 0, fives := 0, hadDecimalPoint := false,
            hadExponent := false, isNegative := neg } false rfl
        rw [hslz] at h
        exact h
      have hs3 : (s3.twos - s3.fives).natAbs ≤ 1 := by
        have h := readDigits_diff ar cs3 s2 hd1 false (fun _ => hs2) (by omega)
        rw [hrd] at h
        exact h
      unfold Accumulate
      rw [hrs]
      dsimp only
      rw [hslz]
      dsimp only
      rw [hrd]
      dsimp only
      by_cases hd2e : hd2 = false
      · rw [if_pos hd2e]
        exact hs3
      · rw [if_neg hd2e]
        rcases hre : readExponentPart ar s3 cs4 with _ | s4
        · exact hs3
        · dsimp only
          have h := readExponentPart_some ar s3 cs4 s4 hre
          omega
  · intro s d ov h1 h2
    exact (accumulateDigit_diff d ov s h1 h2).2

/-- Witness for the exponent-difference invariant at a concrete state. -/
theorem accumulate_diff_le_one_witness :
    ((false : Bool) = false → (NumericConverter.reset.twos = NumericConverter.reset.fives)) ∧
    (NumericConverter.reset.twos - NumericConverter.reset.fives).natAbs ≤ 1 ∧
    (((accumulateDigit 3 false NumericConverter.reset).1).twos -
      ((accumulateDigit 3 false NumericConverter.reset).1).fives).natAbs ≤ 1 :=
  ⟨fun _ => by decide, by decide,
    accumulate_diff_le_one.2 NumericConverter.reset 3 false (fun _ => by decide) (by decide)⟩
/-- C4: `FitsInUint32` holds exactly when no decimal point or exponent was
seen, the value is non-negative or zero, both scale exponents are zero and
the mantissa is within the unsigned 32-bit range; "4294967295" fits and is
returned exactly by `GetUint32`, "4294967296" does not fit. -/
theorem fitsInUint32_spec :
    (∀ s : NumericConverter,
        FitsInUint32 s = true ↔
          (s.hadDecimalPoint = false ∧ s.hadExponent = false ∧
            (s.isNegative = false ∨ s.lvalue = 0) ∧ s.twos = 0 ∧ s.fives = 0 ∧
            s.lvalue ≤ uint32Max)) ∧
    ((Accumulate true true "4294967295".toList).1 = true ∧
      FitsInUint32 (Accumulate true true "4294967295".toList).2 = true ∧
      GetUint32 (Accumulate true true "4294967295".toList).2 = 4294967295) ∧
    ((Accumulate true true "4294967296".toList).1 = true ∧
      FitsInUint32 (Accumulate true true "4294967296".toList).2 = false) := by
  refine ⟨?_, by decide, by decide⟩
  intro s
  simp [FitsInUint32]

theorem skipWhite_no_digit : ∀ (cs : List Char), (∀ c ∈ cs, c.isDigit = false) →
    ∀ c ∈ skipWhite cs, c.isDigit = false := by
  intro cs
  induction cs with
  | nil => intro h; exact h
  | cons c rest ih =>
    intro h
    rw [skipWhite]
    split_ifs with hw
    · exact ih (fun x hx => h x (List.mem_cons_of_mem _ hx))
    · exact h

theorem readSign_no_digit : ∀ (an : Bool) (cs : List Char) (b : Bool) (rest : List Char),
    readSign an cs = some (b, rest) → (∀ c ∈ cs, c.isDigit = false) →
    ∀ c ∈ rest, c.isDigit = false := by
  intro an cs b rest h hnd
  cases cs with
  | nil =>
    rw [readSign] at h
    simp only [Option.some.injEq, Prod.mk.injEq] at h
    rw [← h.2]
    intro c hc
    cases hc
  | cons c0 tl =>
    rw [readSign] at h
    split_ifs at h
    all_goals simp only [Option.some.injEq, Prod.mk.injEq] at h
    all_goals rw [← h.2]
    all_goals first
      | exact hnd
      | exact fun c hc => hnd c (List.mem_cons_of_mem _ hc)

theorem skipLeadingZeros_no_digit : ∀ (ar : Bool) (cs : List Char),
    ∀ (s : NumericConverter) (hd : Bool), (∀ c ∈ cs, c.isDigit = false) →
      (skipLeadingZeros ar s hd cs).2.1 = hd ∧
        ∀ c ∈ (skipLeadingZeros ar s hd cs).2.2, c.isDigit = false := by
  intro ar cs
  induction cs with
  | nil =>
    intro s hd h
    exact ⟨rfl, fun c hc => absurd hc (List.not_mem_nil c)⟩
  | cons c rest ih =>
    intro s hd h
    rw [skipLeadingZeros]
    split_ifs with h0 hp hdot
    · exact absurd (h c (List.mem_cons_self c rest)) (by rw [h0]; decide)
    · exact absurd (h c (List.mem_cons_self c rest)) (by rw [h0]; decide)
    · exact ih _ _ (fun x hx => h x (List.mem_cons_of_mem _ hx))
    · exact ⟨rfl, h⟩

theorem readDigits_no_digit : ∀ (ar : Bool) (cs : List Char),
    ∀ (s : NumericConverter) (hd ov : Bool), (∀ c ∈ cs, c.isDigit = false) →
      (readDigits ar s hd ov cs).2.1 = hd ∧
        ∀ c ∈ (readDigits ar s hd ov cs).2.2, c.isDigit = false := by
  intro ar cs
  induction cs with
  | nil =>
    intro s hd ov h
    exact ⟨rfl, fun c hc => absurd hc (List.not_mem_nil c)⟩
  | cons c rest ih =>
    intro s hd ov h
    rw [readDigits]
    split_ifs with hc hdot
    · exact absurd (h c (List.mem_cons_self c rest)) (by simp [hc])
    · exact ih _ _ _ (fun x hx => h x (List.mem_cons_of_mem _ hx))
    · exact ⟨rfl, h⟩

/-- C6: `Accumulate` fails on any input containing no digit at all (in
particular ".", "" and "e5") and on an exponent marker not followed by a
digit ("1e"); an input of only leading zeros is a valid parse of zero. -/
theorem accumulate_requires_digit :
    (∀ (acceptNegative acceptReals : Bool) (cs : List Char),
        (∀ c ∈ cs, c.isDigit = false) →
        (Accumulate acceptNegative acceptReals cs).1 = false) ∧
    (Accumulate true true ".".toList).1 = false ∧
    (Accumulate true true "".toList).1 = false ∧
    (Accumulate true true "e5".toList).1 = false ∧
    (Accumulate true true "1e".toList).1 = false ∧
    ((Accumulate true true "000".toList).1 = true ∧
      (Accumulate true true "000".toList).2.lvalue = 0 ∧
      (Accumulate true true "000".toList).2.twos = 0 ∧
      (Accumulate true true "000".toList).2.fives = 0) := by
  refine ⟨?_, by decide, by decide, by decide, by decide, by decide⟩
  intro an ar cs h
  have h1 := skipWhite_no_digit cs h
  rcases hrs : readSign an (skipWhite cs) with _ | ⟨neg, cs2⟩
  · unfold Accumulate
    rw [hrs]
  · have h2 := readSign_no_digit an (skipWhite cs) neg cs2 hrs h1
    rcases hslz : skipLeadingZeros ar
      { lvalue := 0, twos := 0, fives := 0, hadDecimalPoint := false,
        hadExponent := false, isNegative := neg }
      false cs2 with ⟨s2, hd1, cs3⟩
    have h3 := skipLeadingZeros_no_digit ar cs2
      { lvalue := 0, twos := 0, fives := 0, hadDecimalPoint := false,
        hadExponent := false, isNegative := neg } false h2
    rw [hslz] at h3
    rcases hrd : readDigits ar s2 hd1 false cs3 with ⟨s3, hd2, cs4⟩
    have h4 := readDigits_no_digit ar cs3 s2 hd1 false h3.2
    rw [hrd] at h4
    unfold Accumulate
    rw [hrs]
    dsimp only
    rw [hslz]
    dsimp only
    rw [hrd]
    dsimp only
    rw [if_pos (h4.1.trans h3.1)]

/-- Witness for the no-digit failure theorem on the digit-free input "x". -/
theorem accumulate_requires_digit_witness :
    (∀ c ∈ ['x'], c.isDigit = false) ∧ (Accumulate true true ['x']).1 = false :=
  ⟨by decide, accumulate_requires_digit.1 true true ['x'] (by decide)⟩

/-- C7 counterexample: with `acceptReals = false` the input "1.5" does not
make `Accumulate` fail: it returns true (the claim says it returns
false). -/
theorem accumulate_point_no_reals_counterexample :
    (Accumulate true false "1.5".toList).1 = true := by decide

/-- C7 amended: with `acceptReals = false` a decimal point is not an error
but a terminator: "1.5" parses successfully as the integer 1 (`Accumulate`
returns true, the state holds mantissa 1 with zero scale exponents and no
decimal-point flag), while ".5" still fails for lack of a digit before the
point. -/
theorem accumulate_point_no_reals_amended :
    Accumulate true false "1.5".toList =
      (true, { lvalue := 1, twos := 0, fives := 0, hadDecimalPoint := false,
               hadExponent := false, isNegative := false }) ∧
    GetFloat (Accumulate true false "1.5".toList).2 = 1 ∧
    (Accumulate true false ".5".toList).1 = false := by
  refine ⟨by decide, ?_, by decide⟩
  decide

/-- C8 counterexample: the successful parse of "429496.7296" ends with
twosExponent = -3 and fivesExponent = -4 (magnitudes 3 and 4); the claim's
smaller-magnitude rule yields 3, but `GetDigitsAfterPoint` returns 4. -/
theorem getDigitsAfterPoint_counterexample :
    (Accumulate true true "429496.7296".toList).1 = true ∧
    (Accumulate true true "429496.7296".toList).2.twos = -3 ∧
    (Accumulate true true "429496.7296".toList).2.fives = -4 ∧
    GetDigitsAfterPoint (Accumulate true true "429496.7296".toList).2 = 4 ∧
    GetDigitsAfterPointSpec (Accumulate true true "429496.7296".toList).2 = 3 := by
  refine ⟨by decide, by decide, by decide, by decide, by decide⟩

/-- C8 amended: `GetDigitsAfterPoint` returns the smaller (most negative) of
the two scale exponents, negated, and 0 when that minimum is non-negative;
with twosExponent = -3 and fivesExponent = -4 it returns 4. -/
theorem getDigitsAfterPoint_amended :
    (∀ s : NumericConverter,
        GetDigitsAfterPoint s =
          if min s.twos s.fives < 0 then (-(min s.twos s.fives)).toNat else 0) ∧
    GetDigitsAfterPoint (⟨0, -3, -4, true, false, false⟩ : NumericConverter) = 4 := by
  refine ⟨?_, by decide⟩
  intro s
  unfold GetDigitsAfterPoint
  dsimp only
  split_ifs <;> omega
theorem inversePowersOfTen_eq (t : Int) (h1 : t < 0) (h2 : -12 ≤ t) :
    inversePowersOfTen.getD (-t - 1).toNat 0 = (10 : ℚ) ^ t := by
  interval_cases t
  · show (1 : ℚ) / 1000000000000 = (10 : ℚ) ^ (-12 : ℤ)
    norm_num
  · show (1 : ℚ) / 100000000000 = (10 : ℚ) ^ (-11 : ℤ)
    norm_num
  · show (1 : ℚ) / 10000000000 = (10 : ℚ) ^ (-10 : ℤ)
    norm_num
  · show (1 : ℚ) / 1000000000 = (10 : ℚ) ^ (-9 : ℤ)
    norm_num
  · show (1 : ℚ) / 100000000 = (10 : ℚ) ^ (-8 : ℤ)
    norm_num
  · show (1 : ℚ) / 10000000 = (10 : ℚ) ^ (-7 : ℤ)
    norm_num
  · show (1 : ℚ) / 1000000 = (10 : ℚ) ^ (-6 : ℤ)
    norm_num
  · show (1 : ℚ) / 100000 = (10 : ℚ) ^ (-5 : ℤ)
    norm_num
  · show (1 : ℚ) / 10000 = (10 : ℚ) ^ (-4 : ℤ)
    norm_num
  · show (1 : ℚ) / 1000 = (10 : ℚ) ^ (-3 : ℤ)
    norm_num
  · show (1 : ℚ) / 100 = (10 : ℚ) ^ (-2 : ℤ)
    norm_num
  · show (1 : ℚ) / 10 = (10 : ℚ) ^ (-1 : ℤ)
    norm_num

theorem tensFactor_eq (q : ℚ) (t : Int) :
    (if t ≠ 0 then
      (if t < 0 ∧ -12 ≤ t then q * inversePowersOfTen.getD (-t - 1).toNat 0
      else q * (10 : ℚ) ^ t)
    else q) = q * (10 : ℚ) ^ t := by
  split_ifs with h1 h2
  · rw [inversePowersOfTen_eq t h2.1 h2.2]
  · rfl
  · rw [not_ne_iff.mp h1]
    simp

/-- C2: `GetFloat` reconstructs sign * mantissa * 10^min(twos,fives) with a
final correction by 5 or 2 for the exponent that exceeds the other, the
small negative powers of ten coming from the reciprocal table; "1.5e2"
parses to 150 and "1.5e-2" to 0.015 = 3/200, the latter with
tens = -3 inside the reciprocal-table range -12..-1. -/
theorem getFloat_reconstruction :
    (∀ s : NumericConverter,
        GetFloat s = (if s.isNegative then (-1 : ℚ) else 1) * (s.lvalue : ℚ) *
          (10 : ℚ) ^ (min s.twos s.fives) *
          (if s.twos < s.fives then (5 : ℚ) else if s.fives < s.twos then 2 else 1)) ∧
    ((Accumulate true true "1.5e2".toList).1 = true ∧
      GetFloat (Accumulate true true "1.5e2".toList).2 = 150) ∧
    ((Accumulate true true "1.5e-2".toList).1 = true ∧
      GetFloat (Accumulate true true "1.5e-2".toList).2 = 3 / 200 ∧
      min (Accumulate true true "1.5e-2".toList).2.twos
        (Accumulate true true "1.5e-2".toList).2.fives = -3 ∧
      ((-12 : Int) ≤ -3 ∧ (-3 : Int) < 0)) := by
  refine ⟨?_, ⟨by decide, ?_⟩, ⟨by decide, ?_, by decide, by decide⟩⟩
  · intro s
    unfold GetFloat
    dsimp only
    have hmin : (if s.twos < s.fives then s.twos else s.fives) = min s.twos s.fives := by
      split_ifs <;> omega
    rw [hmin, tensFactor_eq]
    split_ifs <;> ring
  · have hstate : (Accumulate true true "1.5e2".toList).2 =
      ⟨15, 1, 1, true, true, false⟩ := by decide
    rw [hstate]
    show (15 : ℚ) * (10 : ℚ) ^ (1 : ℤ) = 150
    norm_num
  · have hstate : (Accumulate true true "1.5e-2".toList).2 =
      ⟨15, -3, -3, true, true, false⟩ := by decide
    rw [hstate]
    show (15 : ℚ) * ((1 : ℚ) / 1000) = 3 / 200
    norm_num
theorem SafeStrtoulFrom_eq (oracle : List Char → Nat → Nat × Nat) :
    ∀ (s : List Char) (i base : Nat),
      SafeStrtoulFrom oracle s i base =
        if (s.dropWhile isSpaceTab).head? = some '-' then
          (0, i + (s.takeWhile isSpaceTab).length)
        else
          ((oracle (s.dropWhile isSpaceTab) base).1,
            i + (s.takeWhile isSpaceTab).length + (oracle (s.dropWhile isSpaceTab) base).2) := by
  intro s
  induction s with
  | nil =>
    intro i base
    rcases ho : oracle [] base with ⟨v, n⟩
    simp [SafeStrtoulFrom, ho]
  | cons c rest ih =>
    intro i base
    rw [SafeStrtoulFrom]
    by_cases hw : isSpaceTab c = true
    · rw [if_pos hw, ih (i + 1) base]
      rw [List.dropWhile_cons_of_pos hw, List.takeWhile_cons_of_pos hw]
      split_ifs with h
      · simp only [Prod.mk.injEq, List.length_cons]
        exact ⟨by trivial, by omega⟩
      · simp only [Prod.mk.injEq, List.length_cons]
        exact ⟨by trivial, by omega⟩
    · rw [if_neg hw]
      rw [List.dropWhile_cons_of_neg (by simpa using hw),
        List.takeWhile_cons_of_neg (by simpa using hw)]
      by_cases hm : c = '-'
      · subst hm
        rw [if_pos rfl, if_pos (show ('-' :: rest).head? = some '-' from rfl)]
        simp
      · rw [if_neg hm]
        rw [if_neg (by simp [hm])]
        rcases ho : oracle (c :: rest) base with ⟨v, n⟩
        simp [ho]

/-- C9: on any input whose first character after leading spaces and tabs is
a minus sign, `SafeStrtoul` returns 0 with the end position at that minus
sign (no number characters consumed), independently of the underlying
`strtoul`; on every other input it delegates to `strtoul` with the given
base. -/
theorem safeStrtoul_rejects_minus :
    (∀ (oracle : List Char → Nat → Nat × Nat) (s : List Char) (base : Nat),
        (s.dropWhile isSpaceTab).head? = some '-' →
        SafeStrtoul oracle s base = (0, (s.takeWhile isSpaceTab).length)) ∧
    (∀ (oracle1 oracle2 : List Char → Nat → Nat × Nat) (s : List Char) (base1 base2 : Nat),
        (s.dropWhile isSpaceTab).head? = some '-' →
        SafeStrtoul oracle1 s base1 = SafeStrtoul oracle2 s base2) ∧
    (∀ (oracle : List Char → Nat → Nat × Nat) (s : List Char) (base : Nat),
        (s.dropWhile isSpaceTab).head? ≠ some '-' →
        SafeStrtoul oracle s base =
          ((oracle (s.dropWhile isSpaceTab) base).1,
            (s.takeWhile isSpaceTab).length + (oracle (s.dropWhile isSpaceTab) base).2)) := by
  refine ⟨?_, ?_, ?_⟩
  · intro oracle s base h
    rw [SafeStrtoul, SafeStrtoulFrom_eq oracle s 0 base, if_pos h]
    simp
  · intro oracle1 oracle2 s base1 base2 h
    rw [SafeStrtoul, SafeStrtoul, SafeStrtoulFrom_eq oracle1 s 0 base1,
      SafeStrtoulFrom_eq oracle2 s 0 base2, if_pos h, if_pos h]
  · intro oracle s base h
    rw [SafeStrtoul, SafeStrtoulFrom_eq oracle s 0 base, if_neg h]
    simp

/-- Witness for the minus-rejection theorem on the input " -5" with an
arbitrary concrete stand-in for `strtoul`. -/
theorem safeStrtoul_rejects_minus_witness :
    ((" -5".toList.dropWhile isSpaceTab).head? = some '-') ∧
    SafeStrtoul (fun _ _ => (7, 3)) " -5".toList 10 = (0, 1) :=
  ⟨by decide,
    (safeStrtoul_rejects_minus.1 (fun _ _ => (7, 3)) " -5".toList 10 (by decide)).trans
      (by decide)⟩
theorem isDigit_not_special (c : Char) (h : c.isDigit = true) :
    ¬(c = ' ' ∨ c = '\t') ∧ c ≠ '-' ∧ c ≠ '+' ∧ c ≠ '.' := by
  refine ⟨?_, ?_, ?_, ?_⟩
  · rintro (he | he) <;> rw [he] at h <;> exact absurd h (by decide)
  · intro he; rw [he] at h; exact absurd h (by decide)
  · intro he; rw [he] at h; exact absurd h (by decide)
  · intro he; rw [he] at h; exact absurd h (by decide)

theorem skipWhite_cons_of_digit (c : Char) (X : List Char) (h : c.isDigit = true) :
    skipWhite (c :: X) = c :: X := by
  rw [skipWhite, if_neg (isDigit_not_special c h).1]

theorem readSignD_cons_of_digit (c : Char) (X : List Char) (h : c.isDigit = true) :
    readSignD (c :: X) = (false, c :: X) := by
  rw [readSignD, if_neg (isDigit_not_special c h).2.1,
    if_neg (isDigit_not_special c h).2.2.1]

theorem readVBP_append : ∀ (d : List Char) (v : ℚ) (X : List Char),
    (∀ c ∈ d, c.isDigit = true) →
    readValueBeforePoint v (d ++ X) =
      readValueBeforePoint ((readValueBeforePoint v d).1) X := by
  intro d
  induction d with
  | nil => intro v X h; rfl
  | cons c d' ih =>
    intro v X h
    have hc : c.isDigit = true := h c (List.mem_cons_self c d')
    have hstep : readValueBeforePoint v (c :: d') =
        readValueBeforePoint (v * 10 + ((c.toNat : ℚ) - 48)) d' := by
      rw [readValueBeforePoint, if_pos hc]
    rw [List.cons_append, readValueBeforePoint, if_pos hc,
      ih _ X (fun x hx => h x (List.mem_cons_of_mem _ hx)), hstep]

theorem readVBP_stop (X : List Char) (v : ℚ)
    (h : ∀ c, X.head? = some c → c.isDigit = false) :
    readValueBeforePoint v X = (v, X) := by
  cases X with
  | nil => rfl
  | cons c rest => rw [readValueBeforePoint, if_neg (by simp [h c rfl])]

theorem readVAP_zero_step (dap : Int) (Y : List Char) :
    readValueAfterPoint 0 dap false ('0' :: Y) =
      readValueAfterPoint 0 (dap + 1) false Y := by
  rw [readValueAfterPoint]
  norm_num
  rw [if_pos (by decide : ('0' : Char).isDigit = true),
    (by decide : ('0' : Char).toNat - 48 = 0)]

theorem readVAP_zeros : ∀ (k : Nat) (dap : Int) (X : List Char),
    (∀ c, X.head? = some c → c.isDigit = false) →
    readValueAfterPoint 0 dap false (List.replicate k '0' ++ X) = (0, dap + k, X) := by
  intro k
  induction k with
  | zero =>
    intro dap X h
    rw [List.replicate_zero, List.nil_append]
    cases X with
    | nil => simp [readValueAfterPoint]
    | cons c rest =>
      rw [readValueAfterPoint, if_neg (by simp [h c rfl])]
      simp
  | succ k ih =>
    intro dap X h
    rw [List.replicate_succ, List.cons_append, readVAP_zero_step, ih (dap + 1) X h]
    simp only [Prod.mk.injEq]
    refine ⟨by trivial, ?_, by trivial⟩
    push_cast
    ring

theorem readFracPart_point (Y : List Char) :
    readFracPart ('.' :: Y) = readValueAfterPoint 0 0 false Y := by
  rw [readFracPart, if_pos rfl]

theorem readFracPart_no_point (X : List Char)
    (h : ∀ c, X.head? = some c → c ≠ '.') : readFracPart X = (0, 0, X) := by
  cases X with
  | nil => rfl
  | cons c rest => rw [readFracPart, if_neg (h c rfl)]

/-- C10: when the accumulated post-point value is zero, `SafeStrtod`
computes the result from the pre-point value and the exponent alone, and
the post-point digit count has no effect; consequently a fractional part of
zero digits can be removed: SafeStrtod("d.0...0<rest>") =
SafeStrtod("d<rest>") for any pre-point digit string d and any suffix not
starting with a digit or point (such as an exponent "e5"). -/
theorem safeStrtod_zero_fraction :
    (∀ (valueBeforePoint : ℚ) (dap1 dap2 exponent : Int),
        combineValue valueBeforePoint 0 dap1 exponent =
          combineValue valueBeforePoint 0 dap2 exponent ∧
        combineValue valueBeforePoint 0 dap1 exponent =
          TimesPowerOf10 valueBeforePoint exponent) ∧
    (∀ (d : List Char) (k : Nat) (rest : List Char),
        d ≠ [] → (∀ c ∈ d, c.isDigit = true) →
        (∀ c, rest.head? = some c → c.isDigit = false ∧ c ≠ '.') →
        SafeStrtod (d ++ '.' :: (List.replicate k '0' ++ rest)) =
          SafeStrtod (d ++ rest)) := by
  constructor
  · intro vb dap1 dap2 e
    constructor <;> simp [combineValue]
  · intro d k rest hne hdig hrest
    obtain ⟨c0, d', rfl⟩ : ∃ c0 d', d = c0 :: d' := by
      cases d with
      | nil => exact absurd rfl hne
      | cons a b => exact ⟨a, b, rfl⟩
    have hc0 : c0.isDigit = true := hdig c0 (List.mem_cons_self c0 d')
    have hnodig : ∀ c, rest.head? = some c → c.isDigit = false :=
      fun c hc => (hrest c hc).1
    have hnopoint : ∀ c, rest.head? = some c → c ≠ '.' :=
      fun c hc => (hrest c hc).2
    rcases hexp : readExponentD rest with ⟨e, r2⟩
    have hVBP1 : readValueBeforePoint 0
        ((c0 :: d') ++ '.' :: (List.replicate k '0' ++ rest)) =
        ((readValueBeforePoint 0 (c0 :: d')).1,
          '.' :: (List.replicate k '0' ++ rest)) := by
      rw [readVBP_append (c0 :: d') 0 _ hdig, readVBP_stop]
      intro c hc
      simp only [List.head?_cons, Option.some.injEq] at hc
      rw [← hc]
      decide
    have hVBP2 : readValueBeforePoint 0 ((c0 :: d') ++ rest) =
        ((readValueBeforePoint 0 (c0 :: d')).1, rest) := by
      rw [readVBP_append (c0 :: d') 0 _ hdig, readVBP_stop _ _ hnodig]
    rw [List.cons_append] at hVBP1 hVBP2
    have hfrac1 : readFracPart ('.' :: (List.replicate k '0' ++ rest)) =
        (0, 0 + (k : Int), rest) := by
      rw [readFracPart_point, readVAP_zeros k 0 rest hnodig]
    have hfrac2 : readFracPart rest = (0, 0, rest) := readFracPart_no_point rest hnopoint
    unfold SafeStrtod
    rw [List.cons_append, List.cons_append,
      skipWhite_cons_of_digit c0 (d' ++ '.' :: (List.replicate k '0' ++ rest)) hc0,
      skipWhite_cons_of_digit c0 (d' ++ rest) hc0,
      readSignD_cons_of_digit c0 (d' ++ '.' :: (List.replicate k '0' ++ rest)) hc0,
      readSignD_cons_of_digit c0 (d' ++ rest) hc0]
    dsimp only
    rw [hVBP1, hVBP2]
    dsimp only
    rw [hfrac1, hfrac2]
    dsimp only
    rw [hexp]
    dsimp only
    simp [combineValue]

/-- Witness for the zero-fraction theorem: "3.000e5" parses to the same
value as "3e5". -/
theorem safeStrtod_zero_fraction_witness :
    ("3".toList ≠ [] ∧ (∀ c ∈ "3".toList, c.isDigit = true) ∧
      (∀ c, "e5".toList.head? = some c → c.isDigit = false ∧ c ≠ '.')) ∧
    SafeStrtod ("3".toList ++ '.' :: (List.replicate 3 '0' ++ "e5".toList)) =
      SafeStrtod ("3".toList ++ "e5".toList) :=
  ⟨⟨by decide, by decide, by decide⟩,
    safeStrtod_zero_fraction.2 "3".toList 3 "e5".toList (by decide) (by decide) (by decide)⟩
